import Mathlib

/-!
Verification development for the takaichi-speech-rag repository.

Shallow embedding of the Python sources:
  * `src/get_diet_speeches.py`  — speech ingestion fetcher (full / incremental / auto dispatch),
  * `src/update_vectorstore.py` — document generation, metadata, and the index-directory swap,
  * `src/rag_engine.py`         — the speaker-filtered retrieval and answer assembly,
  * `src/app.py`                — the HTTP request validation for `POST /ask`,
  * `src/utils.py`              — `format_docs`.

Dates are embedded as integers (the proleptic day ordinal underlying the ISO date
strings the code manipulates: lexicographic comparison of ISO dates coincides with
the numeric order of their ordinals, and `timedelta(days = 3)` is subtraction by 3).
JSON metadata values are embedded by `MetaVal`.  External library behaviour that the
code relies on (the Chroma equality filter, the text splitter, the language model,
the similarity scoring) is kept as an explicit parameter wherever its output shape
matters, and is never hard-coded beyond what the library documents.
-/

/-- A metadata value stored in a document's metadata mapping (JSON scalar or null). -/
inductive MetaVal where
  | null
  | str (s : String)
  | int (n : Int)
deriving DecidableEq, Repr

/-- Embed `rec.get(key)` for a string-valued JSON field: `None` becomes `null`. -/
def MetaVal.ofOptStr : Option String → MetaVal
  | none => .null
  | some s => .str s

/-- Embed `rec.get("date")`, the date field, `None` becoming `null`. -/
def MetaVal.ofOptInt : Option Int → MetaVal
  | none => .null
  | some n => .int n

/-- One parliamentary speech record as fetched from the Kokkai API
(`speechRecord` JSON object).  Every field may be absent, matching the
`rec.get(...)` accesses in the source. The `date` is the day ordinal of the
record's ISO date string. -/
structure SpeechRec where
  speechID : Option String := none
  issueID : Option String := none
  date : Option Int := none
  nameOfHouse : Option String := none
  nameOfMeeting : Option String := none
  speaker : Option String := none
  speakerGroup : Option String := none
  speechURL : Option String := none
  meetingURL : Option String := none
  speech : Option String := none
deriving DecidableEq, Repr

/-- The identifiers present in a list of records (records without a
`speechID` contribute nothing), in file order. -/
def fileIDs (recs : List SpeechRec) : List String :=
  recs.filterMap (·.speechID)

/-- A langchain `Document`: page content plus a metadata mapping, embedded as an
association list (all keys written by this code base are distinct, so
first-match lookup agrees with Python dict lookup). -/
structure Document where
  page_content : String
  metadata : List (String × MetaVal)
deriving DecidableEq, Repr

namespace UpdateVectorstore

/-- `MAX_LEN_NO_SPLIT` from `update_vectorstore.py`. -/
def MAX_LEN_NO_SPLIT : Nat := 1200

/-- `CHUNK_SIZE` from `update_vectorstore.py` (configuration of the external splitter). -/
def CHUNK_SIZE : Nat := 1200

/-- `CHUNK_OVERLAP` from `update_vectorstore.py` (configuration of the external splitter). -/
def CHUNK_OVERLAP : Nat := 200

/-- Rendering of the date field inside the header: `rec.get('date', '')`.
The concrete ISO rendering of the ordinal is irrelevant to every claim;
`toString` stands in for it. -/
def dateText : Option Int → String
  | none => ""
  | some d => toString d

/-- `build_base_text`: the header block (date, house, meeting, speaker)
prepended to the speech body. -/
def build_base_text (rec : SpeechRec) : String :=
  "【日付】" ++ dateText rec.date ++ "\n" ++
  "【院】" ++ rec.nameOfHouse.getD "" ++ "\n" ++
  "【会議】" ++ rec.nameOfMeeting.getD "" ++ "\n" ++
  "【発言者】" ++ rec.speaker.getD "" ++ "\n\n" ++
  rec.speech.getD ""

/-- `build_metadata`: the per-record metadata dict.  Keys are exactly the ones
written by the source; there is no "source" key. -/
def build_metadata (rec : SpeechRec) (rec_idx : Nat) : List (String × MetaVal) :=
  [("speechID", .ofOptStr rec.speechID),
   ("issueID", .ofOptStr rec.issueID),
   ("date", .ofOptInt rec.date),
   ("nameOfHouse", .ofOptStr rec.nameOfHouse),
   ("nameOfMeeting", .ofOptStr rec.nameOfMeeting),
   ("speaker", .ofOptStr rec.speaker),
   ("speakerGroup", .ofOptStr rec.speakerGroup),
   ("speechURL", .ofOptStr rec.speechURL),
   ("meetingURL", .ofOptStr rec.meetingURL),
   ("record_index", .int rec_idx)]

/-- The loop body of `build_documents` for one record: one `Document` when the
formatted text fits in `MAX_LEN_NO_SPLIT`, otherwise one per chunk of
`splitter.split_text` (the external `RecursiveCharacterTextSplitter`, passed in
as `split`).  `{**meta_base, "chunk_index": i, "chunk_count": n}` adds two fresh
keys, embedded as appending them to the association list. -/
def docs_for_record (split : String → List String) (rec : SpeechRec) (rec_idx : Nat) :
    List Document :=
  let base_text := build_base_text rec
  let meta_base := build_metadata rec rec_idx
  if base_text.length ≤ MAX_LEN_NO_SPLIT then
    [{ page_content := base_text,
       metadata := meta_base ++ [("chunk_index", .int 0), ("chunk_count", .int 1)] }]
  else
    let chunks := split base_text
    let total_chunks := chunks.length
    chunks.enum.map fun p =>
      { page_content := p.2,
        metadata := meta_base ++ [("chunk_index", .int p.1), ("chunk_count", .int total_chunks)] }

/-- `build_documents` over the records of the JSONL file, with
`enumerate(..., start = idx)`. -/
def build_documents_aux (split : String → List String) (idx : Nat) :
    List SpeechRec → List Document
  | [] => []
  | r :: rs => docs_for_record split r idx ++ build_documents_aux split (idx + 1) rs

/-- `build_documents`: record indexes start at 1. -/
def build_documents (split : String → List String) (recs : List SpeechRec) : List Document :=
  build_documents_aux split 1 recs

/-- A directory on disk: a filesystem identity (inode) plus its immediate
contents (child name and an opaque payload standing for the child's data). -/
structure Dir where
  ident : Nat
  items : List (String × String)
deriving DecidableEq, Repr

/-- The two directories `swap_active_db` manipulates; `none` means the path
does not exist. -/
structure DbState where
  active : Option Dir
  temp : Option Dir
deriving DecidableEq, Repr

/-- `swap_active_db`: clear the contents of the active directory in place
(keeping the directory, hence its identity) or create it; move every item of
the temp directory into the active directory; remove the then-empty temp
directory.  `freshIdent` is the identity a newly created active directory
would receive. -/
def swap_active_db (freshIdent : Nat) (s : DbState) : DbState :=
  let activeCleared : Dir :=
    match s.active with
    | some d => { d with items := [] }
    | none => { ident := freshIdent, items := [] }
  let movedItems := (s.temp.map Dir.items).getD []
  { active := some { activeCleared with items := activeCleared.items ++ movedItems },
    temp := none }

end UpdateVectorstore

namespace RagEngine

/-- `DEFAULT_SPEAKER` in `rag_engine.py`. -/
def DEFAULT_SPEAKER : String := "高市早苗"

/-- `DEFAULT_TOP_K` in `rag_engine.py`. -/
def DEFAULT_TOP_K : Nat := 3

/-- `format_docs` from `utils.py`: join the page contents with blank lines. -/
def format_docs (docs : List Document) : String :=
  String.intercalate "\n\n" (docs.map (·.page_content))

/-- The Chroma metadata filter semantics the code relies on: a filter dict
matches a document when every filter key is present in the document's metadata
with exactly the filter's value (equality filter). -/
def metadataMatches (filt md : List (String × MetaVal)) : Bool :=
  filt.all fun kv => decide (md.lookup kv.1 = some kv.2)

/-- `vectordb.as_retriever(search_kwargs = {"k": k, "filter": filt}).invoke(q)`:
of the documents matching the filter, the `k` most similar to the query.
Similarity ranking is external; it is embedded as an explicit scoring function,
descending-score order realised by an insertion sort. -/
def retrieve (score : Document → Nat) (db : List Document) (k : Nat)
    (filt : List (String × MetaVal)) : List Document :=
  ((db.filter fun d => metadataMatches filt d.metadata).insertionSort
    fun a b => score b ≤ score a).take k

/-- The `speaker_filter` dict built inside `answer_question`. -/
def speaker_filter : List (String × MetaVal) := [("speaker", .str DEFAULT_SPEAKER)]

/-- One entry of the returned `context_docs` list. -/
structure AnswerContextDoc where
  content : String
  source : Option MetaVal
deriving DecidableEq, Repr

/-- The dict returned by `answer_question`. -/
structure AnswerResult where
  answer : String
  context_docs : List AnswerContextDoc
deriving DecidableEq, Repr

/-- `answer_question`: retrieve the `top_k` documents for the question under
the hardcoded speaker filter, build the context text, invoke the chain (the
external LLM pipeline, embedded as `chain context question session_id`), and
return the answer together with the retrieved documents' content and
`metadata.get("source")`. -/
def answer_question (score : String → Document → Nat)
    (chain : String → String → String → String) (db : List Document)
    (question : String) (top_k : Nat) (session_id : String) : AnswerResult :=
  let docs := retrieve (score question) db top_k speaker_filter
  let context_text := format_docs docs
  let response := chain context_text question session_id
  { answer := response,
    context_docs := docs.map fun d =>
      { content := d.page_content, source := d.metadata.lookup "source" } }

end RagEngine

namespace App

/-- `DEFAULT_TOP_K` in `app.py`. -/
def DEFAULT_TOP_K : Int := 10

/-- The validated `AskRequest` pydantic model. -/
structure AskRequest where
  question : String
  top_k : Int
  session_id : String
deriving DecidableEq, Repr

/-- The raw JSON body of a `POST /ask` request before validation: `top_k` and
`session_id` may be omitted. -/
structure AskRequestInput where
  question : String
  top_k : Option Int
  session_id : Option String
deriving DecidableEq, Repr

/-- Pydantic validation of `AskRequest`: `top_k` defaults to `DEFAULT_TOP_K`
and must satisfy `ge = 1, le = 50`; `session_id` defaults to `"default"`. -/
def validate_ask_request (inp : AskRequestInput) : Except String AskRequest :=
  let k := inp.top_k.getD DEFAULT_TOP_K
  if 1 ≤ k ∧ k ≤ 50 then
    .ok { question := inp.question, top_k := k, session_id := inp.session_id.getD "default" }
  else
    .error "validation error"

/-- A context document of the HTTP response (`ContextDoc`). -/
structure ContextDoc where
  content : String
  source : Option MetaVal
deriving DecidableEq, Repr

/-- The HTTP response of `POST /ask` (`AskResponse`). -/
structure AskResponse where
  answer : String
  context_docs : List ContextDoc
deriving DecidableEq, Repr

/-- The `POST /ask` endpoint: validation happens first (in pydantic, before the
handler body runs); only a validated request reaches `answer_question`, which
is passed in as `engine`. -/
def ask (engine : String → Int → String → RagEngine.AnswerResult)
    (inp : AskRequestInput) : Except String AskResponse :=
  match validate_ask_request inp with
  | .error e => .error e
  | .ok req =>
    let result := engine req.question req.top_k req.session_id
    .ok { answer := result.answer,
          context_docs := result.context_docs.map fun d =>
            { content := d.content, source := d.source } }

end App

namespace GetDietSpeeches

/-- `INIT_FROM_DATE = date(2023, 1, 1)`, as a day ordinal. -/
def INIT_FROM_DATE : Int := 738521

/-- The three files the fetcher owns: the JSONL record file (`OUT_PATH`), the
fetched-ID file (`IDS_PATH`, one identifier per line), and the state file
(`STATE_PATH`, holding `last_fetched_date`).  `none` means the file is absent. -/
structure FetchFiles where
  out : Option (List SpeechRec)
  ids : Option (List String)
  state : Option (Option Int)
deriving DecidableEq, Repr

/-- A fresh deployment: none of the three files exists yet. -/
def emptyFiles : FetchFiles := ⟨none, none, none⟩

/-- `load_state`: the stored `last_fetched_date`, `None` when the file is absent. -/
def load_state (fs : FetchFiles) : Option Int :=
  fs.state.getD none

/-- `load_fetched_ids`: the set of lines of the ID file, empty when absent.
The Python `set` is embedded as a duplicate-free list; only membership and
duplicate-freeness of this value are ever used. -/
def load_fetched_ids (fs : FetchFiles) : List String :=
  match fs.ids with
  | none => []
  | some lines => lines.dedup

/-- `set.add` on the duplicate-free list embedding of a Python set. -/
def insertId (ids : List String) (id : String) : List String :=
  if id ∈ ids then ids else ids ++ [id]

/-- The running `latest_date` update of the fetch loops:
`if rec_date and (latest_date is None or rec_date > latest_date)`.
`combineLatest d cur` folds one record's date into the running maximum; the
loop computes this maximum left to right, the recursions below fold it in from
the right — the resulting value (the maximum observed date) is the same. -/
def combineLatest : Option Int → Option Int → Option Int
  | none, cur => cur
  | some d, none => some d
  | some d, some c => some (max d c)

/-- The paging loop of `fetch_initial` over the full stream of records the API
returns for the window (paging at 100 records per request only slices this
stream; every record is visited once, in order).  Returns the collected ID set
and the maximum observed date. -/
def init_scan : List SpeechRec → List String × Option Int
  | [] => ([], none)
  | r :: rs =>
    let t := init_scan rs
    (match r.speechID with
     | some id => insertId t.1 id
     | none => t.1,
     combineLatest r.date t.2)

/-- `fetch_initial`: when the count query reports zero records nothing is
opened or written and `None` is returned; otherwise the whole stream is
written to the record file (mode `"w"`), the collected ID set replaces the ID
file, and the maximum observed date is returned. -/
def fetch_initial (stream : List SpeechRec) (fs : FetchFiles) : FetchFiles × Option Int :=
  if stream = [] then (fs, none)
  else
    let t := init_scan stream
    ({ fs with out := some stream, ids := some t.1 }, t.2)

/-- The record loop of `fetch_incremental` over the stream, carrying the
mutable `existing_ids` set: a record whose ID is already in the set is
skipped; otherwise the record is appended, its ID (when present) is added to
`existing_ids` and `new_ids`, and the running maximum date is updated.
Returns (appended records, new IDs, maximum observed date among appended
records). -/
def inc_scan (existing : List String) : List SpeechRec → List SpeechRec × List String × Option Int
  | [] => ([], [], none)
  | r :: rs =>
    match r.speechID with
    | some id =>
      if id ∈ existing then inc_scan existing rs
      else
        let t := inc_scan (insertId existing id) rs
        (r :: t.1, id :: t.2.1, combineLatest r.date t.2.2)
    | none =>
      let t := inc_scan existing rs
      (r :: t.1, t.2.1, combineLatest r.date t.2.2)

/-- `fetch_incremental`: load the existing ID set; when the count query
reports zero records nothing is touched and `None` is returned; otherwise the
new records are appended to the record file (mode `"a"`, creating it when
absent) and, when any new ID was seen, the new IDs are appended to the ID
file. -/
def fetch_incremental (stream : List SpeechRec) (fs : FetchFiles) : FetchFiles × Option Int :=
  if stream = [] then (fs, none)
  else
    let existing := load_fetched_ids fs
    let t := inc_scan existing stream
    let out' := some (fs.out.getD [] ++ t.1)
    let ids' := if t.2.1 = [] then fs.ids else some (fs.ids.getD [] ++ t.2.1)
    ({ fs with out := out', ids := ids' }, t.2.2)

/-- Which fetch operation `auto_fetch` dispatched to, and with which window. -/
inductive FetchCall where
  | initial (fromDate untilDate : Int)
  | incremental (fromDate untilDate : Int)
deriving DecidableEq, Repr

/-- The incremental window start of `auto_fetch`:
`date.fromisoformat(state["last_fetched_date"]) - timedelta(days = 3)` when a
state exists, otherwise `INIT_FROM_DATE`. -/
def incremental_from_date (fs : FetchFiles) : Int :=
  match load_state fs with
  | some d => d - 3
  | none => INIT_FROM_DATE

/-- `auto_fetch`: full backfill from `INIT_FROM_DATE` when the record file is
absent or empty, otherwise incremental from 3 days before the stored
`last_fetched_date` (or from `INIT_FROM_DATE` when no state exists); when the
run returns a maximum date, it is saved as the new state.  The upstream API is
embedded as `api fromDate untilDate`, the stream of records for that window. -/
def auto_fetch (api : Int → Int → List SpeechRec) (today : Int) (fs : FetchFiles) :
    FetchFiles × FetchCall :=
  let r :=
    if fs.out = none ∨ fs.out = some [] then
      let r0 := fetch_initial (api INIT_FROM_DATE today) fs
      (r0.1, r0.2, FetchCall.initial INIT_FROM_DATE today)
    else
      let fromDate := incremental_from_date fs
      let r0 := fetch_incremental (api fromDate today) fs
      (r0.1, r0.2, FetchCall.incremental fromDate today)
  match r.2.1 with
  | some l => ({ r.1 with state := some (some l) }, r.2.2)
  | none => (r.1, r.2.2)

/-- One full backfill from a fresh deployment followed by a sequence of
incremental fetches, each over some stream of upstream records. -/
def run_sequence (initStream : List SpeechRec) (incStreams : List (List SpeechRec)) :
    FetchFiles :=
  incStreams.foldl (fun fs st => (fetch_incremental st fs).1)
    (fetch_initial initStream emptyFiles).1

/-- Invariant tying the record file to the ID file: the ID file's lines are
duplicate-free, the identifiers occurring in the record file are
duplicate-free, and every identifier in the record file is a line of the ID
file. -/
def FetchInv (fs : FetchFiles) : Prop :=
  (fs.ids.getD []).Nodup ∧ (fileIDs (fs.out.getD [])).Nodup ∧
    ∀ id ∈ fileIDs (fs.out.getD []), id ∈ fs.ids.getD []

end GetDietSpeeches

/-! ## Helper lemmas -/

theorem retrieve_subset (score : Document → Nat) (db : List Document) (k : Nat)
    (filt : List (String × MetaVal)) (d : Document)
    (hd : d ∈ RagEngine.retrieve score db k filt) :
    d ∈ db ∧ RagEngine.metadataMatches filt d.metadata = true := by
  unfold RagEngine.retrieve at hd
  have h1 : d ∈ (db.filter fun x => RagEngine.metadataMatches filt x.metadata).insertionSort
      fun a b => score b ≤ score a :=
    (List.take_sublist _ _).mem hd
  have h2 : d ∈ db.filter fun x => RagEngine.metadataMatches filt x.metadata :=
    (List.perm_insertionSort _ _).mem_iff.mp h1
  exact List.mem_filter.mp h2

theorem lookup_source_build_meta (rec : SpeechRec) (idx : Nat) (x y : MetaVal) :
    (UpdateVectorstore.build_metadata rec idx ++
        [("chunk_index", x), ("chunk_count", y)]).lookup "source" = none := by
  simp [UpdateVectorstore.build_metadata, List.lookup]

theorem docs_for_record_source_none (split : String → List String) (rec : SpeechRec)
    (idx : Nat) (d : Document) (hd : d ∈ UpdateVectorstore.docs_for_record split rec idx) :
    d.metadata.lookup "source" = none := by
  unfold UpdateVectorstore.docs_for_record at hd
  by_cases h : (UpdateVectorstore.build_base_text rec).length ≤ UpdateVectorstore.MAX_LEN_NO_SPLIT
  · rw [if_pos h] at hd
    simp only [List.mem_singleton] at hd
    subst hd
    exact lookup_source_build_meta rec idx _ _
  · rw [if_neg h] at hd
    simp only [List.mem_map] at hd
    obtain ⟨p, _, hp⟩ := hd
    subst hp
    exact lookup_source_build_meta rec idx _ _

theorem build_documents_aux_source_none (split : String → List String)
    (recs : List SpeechRec) : ∀ (idx : Nat) (d : Document),
    d ∈ UpdateVectorstore.build_documents_aux split idx recs →
    d.metadata.lookup "source" = none := by
  induction recs with
  | nil => intro idx d hd; simp [UpdateVectorstore.build_documents_aux] at hd
  | cons r rs ih =>
    intro idx d hd
    rw [UpdateVectorstore.build_documents_aux, List.mem_append] at hd
    rcases hd with hd | hd
    · exact docs_for_record_source_none split r idx d hd
    · exact ih (idx + 1) d hd

theorem insertId_mem (ids : List String) (id a : String) :
    a ∈ GetDietSpeeches.insertId ids id ↔ a ∈ ids ∨ a = id := by
  unfold GetDietSpeeches.insertId
  split
  next h =>
    constructor
    · exact Or.inl
    · rintro (ha | rfl)
      · exact ha
      · exact h
  next h => simp

theorem insertId_nodup (ids : List String) (id : String) (h : ids.Nodup) :
    (GetDietSpeeches.insertId ids id).Nodup := by
  unfold GetDietSpeeches.insertId
  split
  next => exact h
  next hni =>
    rw [List.nodup_append]
    refine ⟨h, List.nodup_singleton id, ?_⟩
    intro x hx hxid
    rw [List.mem_singleton] at hxid
    subst hxid
    exact hni hx

theorem fileIDs_cons_some (r : SpeechRec) (rs : List SpeechRec) (id : String)
    (h : r.speechID = some id) : fileIDs (r :: rs) = id :: fileIDs rs := by
  simp [fileIDs, List.filterMap_cons, h]

theorem fileIDs_cons_none (r : SpeechRec) (rs : List SpeechRec)
    (h : r.speechID = none) : fileIDs (r :: rs) = fileIDs rs := by
  simp [fileIDs, List.filterMap_cons, h]

theorem fileIDs_append (l₁ l₂ : List SpeechRec) :
    fileIDs (l₁ ++ l₂) = fileIDs l₁ ++ fileIDs l₂ :=
  List.filterMap_append l₁ l₂ _

theorem mem_fileIDs (rs : List SpeechRec) (r : SpeechRec) (id : String)
    (hr : r ∈ rs) (h : r.speechID = some id) : id ∈ fileIDs rs :=
  List.mem_filterMap.mpr ⟨r, hr, h⟩

theorem combineLatest_eq_none (d t : Option Int)
    (h : GetDietSpeeches.combineLatest d t = none) : d = none ∧ t = none := by
  cases d <;> cases t <;> simp [GetDietSpeeches.combineLatest] at h ⊢

theorem combineLatest_eq_some (d t : Option Int) (l : Int)
    (h : GetDietSpeeches.combineLatest d t = some l) :
    (d = some l ∨ t = some l) ∧ (∀ x : Int, d = some x → x ≤ l) ∧
      (∀ x : Int, t = some x → x ≤ l) := by
  cases d with
  | none =>
    cases t with
    | none => simp [GetDietSpeeches.combineLatest] at h
    | some b =>
      simp only [GetDietSpeeches.combineLatest, Option.some.injEq] at h
      subst h
      exact ⟨Or.inr rfl, fun x hx => Option.noConfusion hx,
        fun x hx => le_of_eq (Option.some.inj hx).symm⟩
  | some a =>
    cases t with
    | none =>
      simp only [GetDietSpeeches.combineLatest, Option.some.injEq] at h
      subst h
      exact ⟨Or.inl rfl, fun x hx => le_of_eq (Option.some.inj hx).symm,
        fun x hx => Option.noConfusion hx⟩
    | some b =>
      simp only [GetDietSpeeches.combineLatest, Option.some.injEq] at h
      subst h
      refine ⟨?_, ?_, ?_⟩
      · rcases max_choice a b with hm | hm
        · exact Or.inl (by rw [hm])
        · exact Or.inr (by rw [hm])
      · intro x hx
        obtain rfl := Option.some.inj hx
        exact le_max_left _ _
      · intro x hx
        obtain rfl := Option.some.inj hx
        exact le_max_right _ _

theorem inc_scan_spec (stream : List SpeechRec) : ∀ existing : List String,
    fileIDs (GetDietSpeeches.inc_scan existing stream).1
        = (GetDietSpeeches.inc_scan existing stream).2.1 ∧
    (GetDietSpeeches.inc_scan existing stream).2.1.Nodup ∧
    (∀ id ∈ (GetDietSpeeches.inc_scan existing stream).2.1, id ∉ existing) ∧
    (∀ r ∈ (GetDietSpeeches.inc_scan existing stream).1, r ∈ stream) := by
  induction stream with
  | nil =>
    intro existing
    simp [GetDietSpeeches.inc_scan, fileIDs]
  | cons r rs ih =>
    intro existing
    cases hid : r.speechID with
    | some id =>
      by_cases hmem : id ∈ existing
      · simp only [GetDietSpeeches.inc_scan, hid, if_pos hmem]
        obtain ⟨h1, h2, h3, h4⟩ := ih existing
        exact ⟨h1, h2, h3, fun r' hr' => List.mem_cons_of_mem r (h4 r' hr')⟩
      · simp only [GetDietSpeeches.inc_scan, hid, if_neg hmem]
        obtain ⟨h1, h2, h3, h4⟩ := ih (GetDietSpeeches.insertId existing id)
        refine ⟨?_, ?_, ?_, ?_⟩
        · rw [fileIDs_cons_some r _ id hid, h1]
        · refine List.nodup_cons.mpr ⟨?_, h2⟩
          intro hidmem
          exact h3 id hidmem ((insertId_mem existing id id).mpr (Or.inr rfl))
        · intro x hx
          rcases List.mem_cons.mp hx with rfl | hx'
          · exact hmem
          · intro hxe
            exact h3 x hx' ((insertId_mem existing id x).mpr (Or.inl hxe))
        · intro r' hr'
          rcases List.mem_cons.mp hr' with rfl | hr''
          · exact List.mem_cons_self r' rs
          · exact List.mem_cons_of_mem r (h4 r' hr'')
    | none =>
      simp only [GetDietSpeeches.inc_scan, hid]
      obtain ⟨h1, h2, h3, h4⟩ := ih existing
      refine ⟨?_, h2, h3, ?_⟩
      · rw [fileIDs_cons_none r _ hid, h1]
      · intro r' hr'
        rcases List.mem_cons.mp hr' with rfl | hr''
        · exact List.mem_cons_self r' rs
        · exact List.mem_cons_of_mem r (h4 r' hr'')

theorem inc_scan_all_known (stream : List SpeechRec) : ∀ existing : List String,
    (∀ r ∈ stream, ∃ id, r.speechID = some id ∧ id ∈ existing) →
    GetDietSpeeches.inc_scan existing stream = ([], [], none) := by
  induction stream with
  | nil => intro existing _; rfl
  | cons r rs ih =>
    intro existing h
    obtain ⟨id, hid, hmem⟩ := h r (List.mem_cons_self r rs)
    simp only [GetDietSpeeches.inc_scan, hid, if_pos hmem]
    exact ih existing fun r' hr' => h r' (List.mem_cons_of_mem r hr')

theorem inc_scan_latest (stream : List SpeechRec) : ∀ existing : List String,
    ((GetDietSpeeches.inc_scan existing stream).2.2 = none →
      ∀ r ∈ (GetDietSpeeches.inc_scan existing stream).1, r.date = none) ∧
    (∀ l : Int, (GetDietSpeeches.inc_scan existing stream).2.2 = some l →
      (∃ r ∈ (GetDietSpeeches.inc_scan existing stream).1, r.date = some l) ∧
      (∀ r ∈ (GetDietSpeeches.inc_scan existing stream).1,
        ∀ d : Int, r.date = some d → d ≤ l)) := by
  induction stream with
  | nil =>
    intro existing
    constructor
    · intro _ r hr
      simp [GetDietSpeeches.inc_scan] at hr
    · intro l hl
      simp [GetDietSpeeches.inc_scan] at hl
  | cons r rs ih =>
    intro existing
    cases hid : r.speechID with
    | some id =>
      by_cases hmem : id ∈ existing
      · simpa only [GetDietSpeeches.inc_scan, hid, if_pos hmem] using ih existing
      · simp only [GetDietSpeeches.inc_scan, hid, if_neg hmem]
        obtain ⟨ihn, ihs⟩ := ih (GetDietSpeeches.insertId existing id)
        constructor
        · intro hl x hx
          obtain ⟨hd, ht⟩ := combineLatest_eq_none _ _ hl
          rcases List.mem_cons.mp hx with rfl | hx'
          · exact hd
          · exact ihn ht x hx'
        · intro l hl
          obtain ⟨hor, hbd, hbt⟩ := combineLatest_eq_some _ _ l hl
          constructor
          · rcases hor with hd | ht
            · exact ⟨r, List.mem_cons_self r _, hd⟩
            · obtain ⟨x, hx, hxd⟩ := (ihs l ht).1
              exact ⟨x, List.mem_cons_of_mem r hx, hxd⟩
          · intro x hx d hd
            rcases List.mem_cons.mp hx with rfl | hx'
            · exact hbd d hd
            · cases ht : (GetDietSpeeches.inc_scan (GetDietSpeeches.insertId existing id) rs).2.2 with
              | none => exact absurd (ihn ht x hx') (by rw [hd]; exact fun h => Option.noConfusion h)
              | some c =>
                have hcl : c ≤ l := hbt c ht
                exact le_trans ((ihs c ht).2 x hx' d hd) hcl
    | none =>
      simp only [GetDietSpeeches.inc_scan, hid]
      obtain ⟨ihn, ihs⟩ := ih existing
      constructor
      · intro hl x hx
        obtain ⟨hd, ht⟩ := combineLatest_eq_none _ _ hl
        rcases List.mem_cons.mp hx with rfl | hx'
        · exact hd
        · exact ihn ht x hx'
      · intro l hl
        obtain ⟨hor, hbd, hbt⟩ := combineLatest_eq_some _ _ l hl
        constructor
        · rcases hor with hd | ht
          · exact ⟨r, List.mem_cons_self r _, hd⟩
          · obtain ⟨x, hx, hxd⟩ := (ihs l ht).1
            exact ⟨x, List.mem_cons_of_mem r hx, hxd⟩
        · intro x hx d hd
          rcases List.mem_cons.mp hx with rfl | hx'
          · exact hbd d hd
          · cases ht : (GetDietSpeeches.inc_scan existing rs).2.2 with
            | none => exact absurd (ihn ht x hx') (by rw [hd]; exact fun h => Option.noConfusion h)
            | some c =>
              have hcl : c ≤ l := hbt c ht
              exact le_trans ((ihs c ht).2 x hx' d hd) hcl

theorem init_scan_spec (stream : List SpeechRec) :
    (GetDietSpeeches.init_scan stream).1.Nodup ∧
    ∀ id : String, id ∈ (GetDietSpeeches.init_scan stream).1 ↔ id ∈ fileIDs stream := by
  induction stream with
  | nil =>
    constructor
    · simp [GetDietSpeeches.init_scan]
    · simp [GetDietSpeeches.init_scan, fileIDs]
  | cons r rs ih =>
    cases hid : r.speechID with
    | some id =>
      simp only [GetDietSpeeches.init_scan, hid]
      constructor
      · exact insertId_nodup _ id ih.1
      · intro x
        rw [insertId_mem, ih.2 x, fileIDs_cons_some r rs id hid, List.mem_cons]
        tauto
    | none =>
      simp only [GetDietSpeeches.init_scan, hid]
      refine ⟨ih.1, fun x => ?_⟩
      rw [ih.2 x, fileIDs_cons_none r rs hid]

theorem init_scan_latest (stream : List SpeechRec) :
    ((GetDietSpeeches.init_scan stream).2 = none → ∀ r ∈ stream, r.date = none) ∧
    (∀ l : Int, (GetDietSpeeches.init_scan stream).2 = some l →
      (∃ r ∈ stream, r.date = some l) ∧
      ∀ r ∈ stream, ∀ d : Int, r.date = some d → d ≤ l) := by
  induction stream with
  | nil =>
    constructor
    · intro _ r hr
      exact absurd hr (List.not_mem_nil r)
    · intro l hl
      simp [GetDietSpeeches.init_scan] at hl
  | cons r rs ih =>
    obtain ⟨ihn, ihs⟩ := ih
    have hsnd : (GetDietSpeeches.init_scan (r :: rs)).2
        = GetDietSpeeches.combineLatest r.date (GetDietSpeeches.init_scan rs).2 := rfl
    constructor
    · intro hl x hx
      rw [hsnd] at hl
      obtain ⟨hd, ht⟩ := combineLatest_eq_none _ _ hl
      rcases List.mem_cons.mp hx with rfl | hx'
      · exact hd
      · exact ihn ht x hx'
    · intro l hl
      rw [hsnd] at hl
      obtain ⟨hor, hbd, hbt⟩ := combineLatest_eq_some _ _ l hl
      constructor
      · rcases hor with hd | ht
        · exact ⟨r, List.mem_cons_self r _, hd⟩
        · obtain ⟨x, hx, hxd⟩ := (ihs l ht).1
          exact ⟨x, List.mem_cons_of_mem r hx, hxd⟩
      · intro x hx d hd
        rcases List.mem_cons.mp hx with rfl | hx'
        · exact hbd d hd
        · cases ht : (GetDietSpeeches.init_scan rs).2 with
          | none => exact absurd (ihn ht x hx') (by rw [hd]; exact fun h => Option.noConfusion h)
          | some c =>
            have hcl : c ≤ l := hbt c ht
            exact le_trans ((ihs c ht).2 x hx' d hd) hcl

theorem load_fetched_ids_mem (fs : GetDietSpeeches.FetchFiles) (x : String) :
    x ∈ GetDietSpeeches.load_fetched_ids fs ↔ x ∈ fs.ids.getD [] := by
  cases h : fs.ids <;> simp [GetDietSpeeches.load_fetched_ids, h, List.mem_dedup]

/-! ## Claim theorems -/

/-- C7: a `POST /ask` request with `top_k` 0 or 51 fails validation with the
validation error and the endpoint's result does not depend on the engine (the
Query Engine is never invoked); `top_k` 1 and 50 are accepted; an omitted
`top_k` validates to the default 10. -/
theorem C7_ask_top_k_validation :
    ∀ (q s : String) (e₁ e₂ : String → Int → String → RagEngine.AnswerResult),
      App.validate_ask_request ⟨q, some 0, some s⟩ = .error "validation error" ∧
      App.validate_ask_request ⟨q, some 51, some s⟩ = .error "validation error" ∧
      App.ask e₁ ⟨q, some 0, some s⟩ = App.ask e₂ ⟨q, some 0, some s⟩ ∧
      App.ask e₁ ⟨q, some 51, some s⟩ = App.ask e₂ ⟨q, some 51, some s⟩ ∧
      App.validate_ask_request ⟨q, some 1, some s⟩ = .ok ⟨q, 1, s⟩ ∧
      App.validate_ask_request ⟨q, some 50, some s⟩ = .ok ⟨q, 50, s⟩ ∧
      App.validate_ask_request ⟨q, none, some s⟩ = .ok ⟨q, 10, s⟩ := by
  intro q s e₁ e₂
  refine ⟨rfl, rfl, rfl, rfl, rfl, rfl, rfl⟩

/-- C2: after a successful swap, the active directory holds exactly the
pre-swap contents of the temporary directory, the temporary directory no
longer exists, and when the active directory existed before the swap it is the
same directory (same filesystem identity) with its contents replaced. -/
theorem C2_swap_active_db_spec (freshIdent : Nat) (s : UpdateVectorstore.DbState)
    (t : UpdateVectorstore.Dir) (ht : s.temp = some t) :
    ((UpdateVectorstore.swap_active_db freshIdent s).active.map UpdateVectorstore.Dir.items
        = some t.items) ∧
    (UpdateVectorstore.swap_active_db freshIdent s).temp = none ∧
    (∀ a, s.active = some a →
      (UpdateVectorstore.swap_active_db freshIdent s).active = some ⟨a.ident, t.items⟩) := by
  refine ⟨?_, rfl, ?_⟩
  · cases ha : s.active <;> simp [UpdateVectorstore.swap_active_db, ht, ha]
  · intro a ha
    simp [UpdateVectorstore.swap_active_db, ht, ha]

/-- Witness for C2 at a concrete state. -/
theorem C2_swap_active_db_spec_witness :
    (UpdateVectorstore.swap_active_db 0
        ⟨some ⟨5, [("old", "x")]⟩, some ⟨9, [("a", "1"), ("b", "2")]⟩⟩).active
      = some ⟨5, [("a", "1"), ("b", "2")]⟩ ∧
    (UpdateVectorstore.swap_active_db 0
        ⟨some ⟨5, [("old", "x")]⟩, some ⟨9, [("a", "1"), ("b", "2")]⟩⟩).temp = none := by
  have h := C2_swap_active_db_spec 0
      ⟨some ⟨5, [("old", "x")]⟩, some ⟨9, [("a", "1"), ("b", "2")]⟩⟩
      ⟨9, [("a", "1"), ("b", "2")]⟩ rfl
  exact ⟨h.2.2 ⟨5, [("old", "x")]⟩ rfl, h.2.1⟩

/-- C5: a record whose formatted text fits in `MAX_LEN_NO_SPLIT` contributes
exactly one `Document` to `build_documents`, with chunk index 0, chunk count
1, and page content equal to the formatted text (the first conjunct shows each
record contributes exactly its own block, wherever it sits in the file). -/
theorem C5_short_record_single_document (split : String → List String)
    (rec : SpeechRec) (idx : Nat)
    (h : (UpdateVectorstore.build_base_text rec).length ≤ UpdateVectorstore.MAX_LEN_NO_SPLIT) :
    (∀ rs, UpdateVectorstore.build_documents_aux split idx (rec :: rs)
        = UpdateVectorstore.docs_for_record split rec idx
          ++ UpdateVectorstore.build_documents_aux split (idx + 1) rs) ∧
    UpdateVectorstore.docs_for_record split rec idx
      = [{ page_content := UpdateVectorstore.build_base_text rec,
           metadata := UpdateVectorstore.build_metadata rec idx
             ++ [("chunk_index", .int 0), ("chunk_count", .int 1)] }] := by
  refine ⟨fun rs => rfl, ?_⟩
  unfold UpdateVectorstore.docs_for_record
  rw [if_pos h]

/-- Witness for C5 at a concrete short record. -/
theorem C5_short_record_single_document_witness :
    UpdateVectorstore.docs_for_record (fun _ => []) { speech := some "abc" } 1
      = [{ page_content := UpdateVectorstore.build_base_text { speech := some "abc" },
           metadata := UpdateVectorstore.build_metadata { speech := some "abc" } 1
             ++ [("chunk_index", .int 0), ("chunk_count", .int 1)] }] :=
  (C5_short_record_single_document (fun _ => []) { speech := some "abc" } 1 (by decide)).2

/-- C6: a record whose formatted text exceeds `MAX_LEN_NO_SPLIT` contributes
one `Document` per chunk of the configured splitter: the number of documents
equals the number of chunks, and the document at position `j` carries chunk
`j` as content, chunk index `j`, chunk count equal to the total, and otherwise
the record's metadata unchanged. -/
theorem C6_long_record_chunked_documents (split : String → List String)
    (rec : SpeechRec) (idx : Nat)
    (h : UpdateVectorstore.MAX_LEN_NO_SPLIT < (UpdateVectorstore.build_base_text rec).length) :
    (UpdateVectorstore.docs_for_record split rec idx).length
        = (split (UpdateVectorstore.build_base_text rec)).length ∧
    ∀ (j : Nat) (c : String), (split (UpdateVectorstore.build_base_text rec))[j]? = some c →
      (UpdateVectorstore.docs_for_record split rec idx)[j]? = some
        { page_content := c,
          metadata := UpdateVectorstore.build_metadata rec idx ++
            [("chunk_index", .int j),
             ("chunk_count", .int (split (UpdateVectorstore.build_base_text rec)).length)] } := by
  have hnot : ¬ (UpdateVectorstore.build_base_text rec).length ≤ UpdateVectorstore.MAX_LEN_NO_SPLIT :=
    not_le.mpr h
  constructor
  · unfold UpdateVectorstore.docs_for_record
    rw [if_neg hnot]
    simp [List.enum_length]
  · intro j c hc
    unfold UpdateVectorstore.docs_for_record
    rw [if_neg hnot]
    simp only [List.getElem?_map, List.getElem?_enum, hc, Option.map_some']

set_option maxRecDepth 100000 in
/-- Witness for C6: a record whose speech is 1300 characters long, split by a
function producing two chunks. -/
theorem C6_long_record_chunked_documents_witness :
    (UpdateVectorstore.docs_for_record (fun _ => ["p1", "p2"])
        { speech := some (String.mk (List.replicate 1300 'a')) } 1)[0]?
      = some
        { page_content := "p1",
          metadata := UpdateVectorstore.build_metadata
              { speech := some (String.mk (List.replicate 1300 'a')) } 1 ++
            [("chunk_index", .int 0), ("chunk_count", .int 2)] } :=
  (C6_long_record_chunked_documents (fun _ => ["p1", "p2"])
      { speech := some (String.mk (List.replicate 1300 'a')) } 1 (by decide)).2 0 "p1" rfl

/-- C1: for every database, similarity scoring, chain, question, result count
and session id, every document retrieved by `answer_question` has speaker
metadata equal to `DEFAULT_SPEAKER`, and the returned `context_docs` are
exactly the images of those retrieved documents. -/
theorem C1_answer_question_speaker_filter
    (score : String → Document → Nat) (chain : String → String → String → String)
    (db : List Document) (question : String) (top_k : Nat) (session_id : String) :
    (∀ d ∈ RagEngine.retrieve (score question) db top_k RagEngine.speaker_filter,
      d.metadata.lookup "speaker" = some (.str RagEngine.DEFAULT_SPEAKER)) ∧
    (RagEngine.answer_question score chain db question top_k session_id).context_docs
      = (RagEngine.retrieve (score question) db top_k RagEngine.speaker_filter).map
          fun d => { content := d.page_content, source := d.metadata.lookup "source" } := by
  refine ⟨?_, rfl⟩
  intro d hd
  have h := (retrieve_subset (score question) db top_k RagEngine.speaker_filter d hd).2
  simpa [RagEngine.metadataMatches, RagEngine.speaker_filter] using h

/-- Witness for C1: a concrete one-document database. -/
theorem C1_answer_question_speaker_filter_witness :
    ({ page_content := "body", metadata := [("speaker", MetaVal.str "高市早苗")] } : Document).metadata.lookup
        "speaker" = some (.str RagEngine.DEFAULT_SPEAKER) :=
  (C1_answer_question_speaker_filter (fun _ _ => 0) (fun _ _ _ => "")
      [{ page_content := "body", metadata := [("speaker", MetaVal.str "高市早苗")] }]
      "q" 1 "default").1
    { page_content := "body", metadata := [("speaker", MetaVal.str "高市早苗")] } (by decide)

/-- C10: over an index populated only by the Builder's `build_documents`, every
context document returned by `answer_question` has `source = none` — the
Builder never writes a "source" metadata key, and `answer_question` reads the
source from that key. -/
theorem C10_context_source_none (split : String → List String) (recs : List SpeechRec)
    (score : String → Document → Nat) (chain : String → String → String → String)
    (question : String) (top_k : Nat) (session_id : String) :
    ∀ c ∈ (RagEngine.answer_question score chain
        (UpdateVectorstore.build_documents split recs) question top_k session_id).context_docs,
      c.source = none := by
  intro c hc
  have hc' : c ∈ (RagEngine.retrieve (score question)
      (UpdateVectorstore.build_documents split recs) top_k RagEngine.speaker_filter).map
        fun d => ({ content := d.page_content,
                    source := d.metadata.lookup "source" } : RagEngine.AnswerContextDoc) := hc
  simp only [List.mem_map] at hc'
  obtain ⟨d, hd, hdc⟩ := hc'
  have hdb : d ∈ UpdateVectorstore.build_documents split recs :=
    (retrieve_subset _ _ _ _ d hd).1
  have hsrc : d.metadata.lookup "source" = none :=
    build_documents_aux_source_none split recs 1 d hdb
  rw [← hdc]
  exact hsrc

/-- Witness for C10: a concrete one-record database whose record matches the
speaker filter. -/
theorem C10_context_source_none_witness :
    ({ content := UpdateVectorstore.build_base_text
          { speaker := some "高市早苗", speech := some "x" },
       source := none } : RagEngine.AnswerContextDoc).source = none :=
  C10_context_source_none (fun _ => []) [{ speaker := some "高市早苗", speech := some "x" }]
    (fun _ _ => 0) (fun _ _ _ => "") "q" 1 "d"
    { content := UpdateVectorstore.build_base_text
        { speaker := some "高市早苗", speech := some "x" },
      source := none } (by decide)

theorem fetch_incremental_ids_nodup (st : List SpeechRec) (fs : GetDietSpeeches.FetchFiles)
    (h : (fs.ids.getD []).Nodup) :
    (((GetDietSpeeches.fetch_incremental st fs).1).ids.getD []).Nodup := by
  by_cases hst : st = []
  · simp only [GetDietSpeeches.fetch_incremental, if_pos hst]
    exact h
  · obtain ⟨_, h2, h3, _⟩ := inc_scan_spec st (GetDietSpeeches.load_fetched_ids fs)
    simp only [GetDietSpeeches.fetch_incremental, if_neg hst]
    by_cases hnew : (GetDietSpeeches.inc_scan (GetDietSpeeches.load_fetched_ids fs) st).2.1 = []
    · simp only [if_pos hnew]
      exact h
    · simp only [if_neg hnew, Option.getD_some]
      rw [List.nodup_append]
      refine ⟨h, h2, ?_⟩
      intro x hx hxn
      exact h3 x hxn ((load_fetched_ids_mem fs x).mpr hx)

theorem fetch_incremental_inv (st : List SpeechRec) (fs : GetDietSpeeches.FetchFiles)
    (h : GetDietSpeeches.FetchInv fs) :
    GetDietSpeeches.FetchInv (GetDietSpeeches.fetch_incremental st fs).1 := by
  obtain ⟨hids, hout, hsub⟩ := h
  by_cases hst : st = []
  · simp only [GetDietSpeeches.fetch_incremental, if_pos hst]
    exact ⟨hids, hout, hsub⟩
  · obtain ⟨h1, h2, h3, h4⟩ := inc_scan_spec st (GetDietSpeeches.load_fetched_ids fs)
    refine ⟨fetch_incremental_ids_nodup st fs hids, ?_, ?_⟩
    · simp only [GetDietSpeeches.fetch_incremental, if_neg hst, Option.getD_some]
      rw [fileIDs_append, h1, List.nodup_append]
      refine ⟨hout, h2, ?_⟩
      intro x hx hxn
      exact h3 x hxn ((load_fetched_ids_mem fs x).mpr (hsub x hx))
    · intro id hid
      simp only [GetDietSpeeches.fetch_incremental, if_neg hst, Option.getD_some] at hid ⊢
      rw [fileIDs_append, List.mem_append, h1] at hid
      by_cases hnew : (GetDietSpeeches.inc_scan (GetDietSpeeches.load_fetched_ids fs) st).2.1 = []
      · simp only [if_pos hnew]
        rcases hid with hid | hid
        · exact hsub id hid
        · rw [hnew] at hid
          exact absurd hid (List.not_mem_nil id)
      · simp only [if_neg hnew, Option.getD_some]
        rw [List.mem_append]
        rcases hid with hid | hid
        · exact Or.inl (hsub id hid)
        · exact Or.inr hid

theorem fetch_incremental_out_some (st : List SpeechRec) (fs : GetDietSpeeches.FetchFiles)
    (hsome : ∀ r ∈ fs.out.getD [], r.speechID.isSome)
    (hst : ∀ r ∈ st, r.speechID.isSome) :
    ∀ r ∈ ((GetDietSpeeches.fetch_incremental st fs).1).out.getD [], r.speechID.isSome := by
  by_cases hempty : st = []
  · simp only [GetDietSpeeches.fetch_incremental, if_pos hempty]
    exact hsome
  · simp only [GetDietSpeeches.fetch_incremental, if_neg hempty, Option.getD_some]
    intro r hr
    rw [List.mem_append] at hr
    rcases hr with hr | hr
    · exact hsome r hr
    · exact hst r ((inc_scan_spec st (GetDietSpeeches.load_fetched_ids fs)).2.2.2 r hr)

theorem fetch_initial_inv (stream : List SpeechRec) (h : (fileIDs stream).Nodup) :
    GetDietSpeeches.FetchInv
      (GetDietSpeeches.fetch_initial stream GetDietSpeeches.emptyFiles).1 := by
  by_cases hst : stream = []
  · simp only [GetDietSpeeches.fetch_initial, if_pos hst]
    exact ⟨by simp [GetDietSpeeches.emptyFiles],
      by simp [GetDietSpeeches.emptyFiles, fileIDs],
      by simp [GetDietSpeeches.emptyFiles, fileIDs]⟩
  · obtain ⟨hn, hm⟩ := init_scan_spec stream
    simp only [GetDietSpeeches.fetch_initial, if_neg hst]
    exact ⟨hn, h, fun id hid => (hm id).mpr hid⟩

theorem fetch_initial_ids_nodup (stream : List SpeechRec) :
    (((GetDietSpeeches.fetch_initial stream GetDietSpeeches.emptyFiles).1).ids.getD []).Nodup := by
  by_cases hst : stream = []
  · simp [GetDietSpeeches.fetch_initial, if_pos hst, GetDietSpeeches.emptyFiles]
  · simp only [GetDietSpeeches.fetch_initial, if_neg hst]
    exact (init_scan_spec stream).1

theorem fetch_initial_out_some (stream : List SpeechRec)
    (h : ∀ r ∈ stream, r.speechID.isSome) :
    ∀ r ∈ ((GetDietSpeeches.fetch_initial stream GetDietSpeeches.emptyFiles).1).out.getD [],
      r.speechID.isSome := by
  by_cases hst : stream = []
  · simp [GetDietSpeeches.fetch_initial, if_pos hst, GetDietSpeeches.emptyFiles]
  · simp only [GetDietSpeeches.fetch_initial, if_neg hst, Option.getD_some]
    exact h

theorem foldl_inc_ids_nodup (streams : List (List SpeechRec)) :
    ∀ fs : GetDietSpeeches.FetchFiles, (fs.ids.getD []).Nodup →
    ((streams.foldl (fun a b => (GetDietSpeeches.fetch_incremental b a).1) fs).ids.getD
      []).Nodup := by
  induction streams with
  | nil => intro fs h; exact h
  | cons st sts ih =>
    intro fs h
    rw [List.foldl_cons]
    exact ih _ (fetch_incremental_ids_nodup st fs h)

theorem foldl_inc_inv (streams : List (List SpeechRec)) :
    ∀ fs : GetDietSpeeches.FetchFiles, GetDietSpeeches.FetchInv fs →
    (∀ r ∈ fs.out.getD [], r.speechID.isSome) →
    (∀ st ∈ streams, ∀ r ∈ st, r.speechID.isSome) →
    GetDietSpeeches.FetchInv
        (streams.foldl (fun a b => (GetDietSpeeches.fetch_incremental b a).1) fs) ∧
    ∀ r ∈ (streams.foldl (fun a b => (GetDietSpeeches.fetch_incremental b a).1) fs).out.getD [],
      r.speechID.isSome := by
  induction streams with
  | nil => intro fs h hsome _; exact ⟨h, hsome⟩
  | cons st sts ih =>
    intro fs h hsome hstr
    rw [List.foldl_cons]
    exact ih _ (fetch_incremental_inv st fs h)
      (fetch_incremental_out_some st fs hsome (hstr st (List.mem_cons_self st sts)))
      (fun st' hst' => hstr st' (List.mem_cons_of_mem st hst'))

theorem nodup_of_fileIDs_nodup (l : List SpeechRec)
    (hsome : ∀ r ∈ l, r.speechID.isSome) (h : (fileIDs l).Nodup) : l.Nodup := by
  induction l with
  | nil => exact List.nodup_nil
  | cons r rs ih =>
    obtain ⟨id, hid⟩ := Option.isSome_iff_exists.mp (hsome r (List.mem_cons_self r rs))
    rw [fileIDs_cons_some r rs id hid] at h
    rw [List.nodup_cons] at h ⊢
    refine ⟨?_, ih (fun x hx => hsome x (List.mem_cons_of_mem r hx)) h.2⟩
    intro hrmem
    exact h.1 (mem_fileIDs rs r id hrmem hid)

/-- C9: the fetched-ID file contains no duplicate identifier after one full
fetch (which rewrites it from a set) followed by any number of incremental
fetches (each of which appends only identifiers absent from the loaded set). -/
theorem C9_id_file_no_duplicates (initStream : List SpeechRec)
    (incStreams : List (List SpeechRec)) :
    ((GetDietSpeeches.run_sequence initStream incStreams).ids.getD []).Nodup :=
  foldl_inc_ids_nodup incStreams _ (fetch_initial_ids_nodup initStream)

/-- C3: across one full fetch (whose upstream stream carries duplicate-free
identifiers, every record bearing one) followed by any number of incremental
fetches over streams of identified records, the record file never contains a
duplicate record, its identifiers stay duplicate-free, and — the mechanism —
an incremental fetch never appends a record whose identifier is already in the
loaded fetched-ID set. -/
theorem C3_no_duplicate_records (initStream : List SpeechRec)
    (incStreams : List (List SpeechRec))
    (h1 : (fileIDs initStream).Nodup)
    (h2 : ∀ r ∈ initStream, r.speechID.isSome)
    (h3 : ∀ st ∈ incStreams, ∀ r ∈ st, r.speechID.isSome) :
    ((GetDietSpeeches.run_sequence initStream incStreams).out.getD []).Nodup ∧
    (fileIDs ((GetDietSpeeches.run_sequence initStream incStreams).out.getD [])).Nodup ∧
    ∀ (fs : GetDietSpeeches.FetchFiles) (st : List SpeechRec) (r : SpeechRec),
      r ∈ (GetDietSpeeches.inc_scan (GetDietSpeeches.load_fetched_ids fs) st).1 →
      ∀ id, r.speechID = some id → id ∉ GetDietSpeeches.load_fetched_ids fs := by
  have hinit := fetch_initial_inv initStream h1
  have hinit_some := fetch_initial_out_some initStream h2
  obtain ⟨hfin, hfsome⟩ := foldl_inc_inv incStreams _ hinit hinit_some h3
  refine ⟨nodup_of_fileIDs_nodup _ hfsome hfin.2.1, hfin.2.1, ?_⟩
  intro fs st r hr id hid hmem
  obtain ⟨hfids, _, hfresh, _⟩ := inc_scan_spec st (GetDietSpeeches.load_fetched_ids fs)
  have hidmem : id ∈ (GetDietSpeeches.inc_scan (GetDietSpeeches.load_fetched_ids fs) st).2.1 := by
    rw [← hfids]
    exact mem_fileIDs _ r id hr hid
  exact hfresh id hidmem hmem

/-- Witness for C3: a full fetch of one record followed by an incremental
fetch that sees the same record again plus a new one. -/
theorem C3_no_duplicate_records_witness :
    ((GetDietSpeeches.run_sequence [{ speechID := some "a" }]
        [[{ speechID := some "a" }, { speechID := some "b" }]]).out.getD []).Nodup :=
  (C3_no_duplicate_records [{ speechID := some "a" }]
      [[{ speechID := some "a" }, { speechID := some "b" }]]
      (by decide) (by decide) (by decide)).1

/-- C4: an `auto_fetch` run that dispatches to incremental (record file
present and non-empty) and whose window stream contains no record with an
identifier outside the loaded fetched-ID set leaves the record file, the
fetched-ID file and the fetch state file unchanged — in particular a second
incremental run over the same date range with no new upstream data is a
no-op. -/
theorem C4_incremental_idempotent (api : Int → Int → List SpeechRec) (today : Int)
    (fs : GetDietSpeeches.FetchFiles) (rs : List SpeechRec)
    (hout : fs.out = some rs) (hne : rs ≠ [])
    (hknown : ∀ r ∈ api (GetDietSpeeches.incremental_from_date fs) today,
      ∃ id, r.speechID = some id ∧ id ∈ GetDietSpeeches.load_fetched_ids fs) :
    (GetDietSpeeches.auto_fetch api today fs).1 = fs := by
  have hcond : ¬ (fs.out = none ∨ fs.out = some []) := by
    rintro (hc | hc) <;> rw [hout] at hc
    · exact Option.noConfusion hc
    · exact hne (Option.some.inj hc)
  simp only [GetDietSpeeches.auto_fetch]
  rw [if_neg hcond]
  by_cases hstream : api (GetDietSpeeches.incremental_from_date fs) today = []
  · rw [hstream]
    simp [GetDietSpeeches.fetch_incremental]
  · have hscan := inc_scan_all_known (api (GetDietSpeeches.incremental_from_date fs) today)
      (GetDietSpeeches.load_fetched_ids fs) hknown
    simp only [GetDietSpeeches.fetch_incremental, if_neg hstream, hscan]
    obtain ⟨o, i, s⟩ := fs
    simp only at hout
    subst hout
    simp

/-- Witness for C4: a second run whose window returns only the already-known
record. -/
theorem C4_incremental_idempotent_witness :
    (GetDietSpeeches.auto_fetch
        (fun _ _ => [{ speechID := some "a", date := some 100 }]) 200
        ⟨some [{ speechID := some "a", date := some 100 }], some ["a"], some (some 100)⟩).1
      = ⟨some [{ speechID := some "a", date := some 100 }], some ["a"], some (some 100)⟩ :=
  C4_incremental_idempotent (fun _ _ => [{ speechID := some "a", date := some 100 }]) 200
    ⟨some [{ speechID := some "a", date := some 100 }], some ["a"], some (some 100)⟩
    [{ speechID := some "a", date := some 100 }] rfl (by decide)
    (by
      intro r hr
      rw [List.mem_singleton] at hr
      subst hr
      exact ⟨"a", rfl, by decide⟩)

/-- C8: `auto_fetch` dispatches to the full backfill over
`[INIT_FROM_DATE, today]` exactly when the record file is absent or empty and
otherwise to an incremental fetch whose window starts 3 days before the stored
`last_fetched_date` (or at `INIT_FROM_DATE` without prior state); and whenever
the chosen run appends at least one new record (the records of the window all
bearing dates, as every API record does), the maximum observed date among the
new records is persisted as the new fetch state. -/
theorem C8_auto_fetch_dispatch (api : Int → Int → List SpeechRec) (today : Int)
    (fs : GetDietSpeeches.FetchFiles) :
    ((fs.out = none ∨ fs.out = some []) →
      (GetDietSpeeches.auto_fetch api today fs).2
        = .initial GetDietSpeeches.INIT_FROM_DATE today) ∧
    (¬ (fs.out = none ∨ fs.out = some []) →
      ∀ d : Int, GetDietSpeeches.load_state fs = some d →
      (GetDietSpeeches.auto_fetch api today fs).2 = .incremental (d - 3) today) ∧
    (¬ (fs.out = none ∨ fs.out = some []) → GetDietSpeeches.load_state fs = none →
      (GetDietSpeeches.auto_fetch api today fs).2
        = .incremental GetDietSpeeches.INIT_FROM_DATE today) ∧
    (¬ (fs.out = none ∨ fs.out = some []) →
      (∀ r ∈ api (GetDietSpeeches.incremental_from_date fs) today, r.date.isSome) →
      (GetDietSpeeches.inc_scan (GetDietSpeeches.load_fetched_ids fs)
          (api (GetDietSpeeches.incremental_from_date fs) today)).1 ≠ [] →
      ∃ l : Int, (GetDietSpeeches.auto_fetch api today fs).1.state = some (some l) ∧
        (∃ r ∈ (GetDietSpeeches.inc_scan (GetDietSpeeches.load_fetched_ids fs)
            (api (GetDietSpeeches.incremental_from_date fs) today)).1, r.date = some l) ∧
        ∀ r ∈ (GetDietSpeeches.inc_scan (GetDietSpeeches.load_fetched_ids fs)
            (api (GetDietSpeeches.incremental_from_date fs) today)).1,
          ∀ d : Int, r.date = some d → d ≤ l) ∧
    ((fs.out = none ∨ fs.out = some []) →
      api GetDietSpeeches.INIT_FROM_DATE today ≠ [] →
      (∀ r ∈ api GetDietSpeeches.INIT_FROM_DATE today, r.date.isSome) →
      ∃ l : Int, (GetDietSpeeches.auto_fetch api today fs).1.state = some (some l) ∧
        (∃ r ∈ api GetDietSpeeches.INIT_FROM_DATE today, r.date = some l) ∧
        ∀ r ∈ api GetDietSpeeches.INIT_FROM_DATE today,
          ∀ d : Int, r.date = some d → d ≤ l) := by
  refine ⟨?_, ?_, ?_, ?_, ?_⟩
  · intro h
    simp only [GetDietSpeeches.auto_fetch]
    rw [if_pos h]
    cases hl : (GetDietSpeeches.fetch_initial (api GetDietSpeeches.INIT_FROM_DATE today) fs).2 <;>
      simp [hl]
  · intro hn d hd
    simp only [GetDietSpeeches.auto_fetch]
    rw [if_neg hn]
    have hfrom : GetDietSpeeches.incremental_from_date fs = d - 3 := by
      simp [GetDietSpeeches.incremental_from_date, hd]
    rw [hfrom]
    cases hl : (GetDietSpeeches.fetch_incremental (api (d - 3) today) fs).2 <;> simp [hl]
  · intro hn hd
    simp only [GetDietSpeeches.auto_fetch]
    rw [if_neg hn]
    have hfrom : GetDietSpeeches.incremental_from_date fs
        = GetDietSpeeches.INIT_FROM_DATE := by
      simp [GetDietSpeeches.incremental_from_date, hd]
    rw [hfrom]
    cases hl : (GetDietSpeeches.fetch_incremental
        (api GetDietSpeeches.INIT_FROM_DATE today) fs).2 <;> simp [hl]
  · intro hn hdated happ
    have hstream_ne : api (GetDietSpeeches.incremental_from_date fs) today ≠ [] := by
      intro he
      rw [he] at happ
      exact happ rfl
    cases hl : (GetDietSpeeches.inc_scan (GetDietSpeeches.load_fetched_ids fs)
        (api (GetDietSpeeches.incremental_from_date fs) today)).2.2 with
    | none =>
      obtain ⟨r, hr⟩ := List.exists_mem_of_ne_nil _ happ
      have hnone := (inc_scan_latest (api (GetDietSpeeches.incremental_from_date fs) today)
        (GetDietSpeeches.load_fetched_ids fs)).1 hl r hr
      have hsome := hdated r ((inc_scan_spec
        (api (GetDietSpeeches.incremental_from_date fs) today)
        (GetDietSpeeches.load_fetched_ids fs)).2.2.2 r hr)
      rw [hnone] at hsome
      exact absurd hsome (by simp)
    | some l =>
      refine ⟨l, ?_, (inc_scan_latest _ _).2 l hl⟩
      simp only [GetDietSpeeches.auto_fetch]
      rw [if_neg hn]
      simp only [GetDietSpeeches.fetch_incremental, if_neg hstream_ne]
      simp [hl]
  · intro h hne hdated
    have hsnd : (GetDietSpeeches.fetch_initial
        (api GetDietSpeeches.INIT_FROM_DATE today) fs).2
        = (GetDietSpeeches.init_scan (api GetDietSpeeches.INIT_FROM_DATE today)).2 := by
      simp only [GetDietSpeeches.fetch_initial, if_neg hne]
    cases hl : (GetDietSpeeches.init_scan (api GetDietSpeeches.INIT_FROM_DATE today)).2 with
    | none =>
      obtain ⟨r, hr⟩ := List.exists_mem_of_ne_nil _ hne
      have hnone := (init_scan_latest (api GetDietSpeeches.INIT_FROM_DATE today)).1 hl r hr
      have hsome := hdated r hr
      rw [hnone] at hsome
      exact absurd hsome (by simp)
    | some l =>
      refine ⟨l, ?_, (init_scan_latest _).2 l hl⟩
      simp only [GetDietSpeeches.auto_fetch]
      rw [if_pos h]
      rw [← hsnd] at hl
      simp [hl]

/-- Witness for C8: concrete incremental and full-backfill dispatches. -/
theorem C8_auto_fetch_dispatch_witness :
    (GetDietSpeeches.auto_fetch (fun _ _ => [{ speechID := some "b", date := some 120 }]) 200
        ⟨some [{ speechID := some "a", date := some 100 }], some ["a"], some (some 100)⟩).2
      = .incremental (100 - 3) 200 ∧
    (GetDietSpeeches.auto_fetch (fun _ _ => [{ speechID := some "b", date := some 120 }]) 200
        ⟨some [{ speechID := some "a", date := some 100 }], some ["a"], some (some 100)⟩).1.state
      = some (some 120) ∧
    (GetDietSpeeches.auto_fetch (fun _ _ => [{ speechID := some "b", date := some 120 }]) 200
        GetDietSpeeches.emptyFiles).2
      = .initial GetDietSpeeches.INIT_FROM_DATE 200 ∧
    (GetDietSpeeches.auto_fetch (fun _ _ => [{ speechID := some "b", date := some 120 }]) 200
        GetDietSpeeches.emptyFiles).1.state = some (some 120) := by
  have h := C8_auto_fetch_dispatch (fun _ _ => [{ speechID := some "b", date := some 120 }]) 200
    ⟨some [{ speechID := some "a", date := some 100 }], some ["a"], some (some 100)⟩
  have h0 := C8_auto_fetch_dispatch (fun _ _ => [{ speechID := some "b", date := some 120 }]) 200
    GetDietSpeeches.emptyFiles
  refine ⟨h.2.1 (by decide) 100 rfl, ?_, h0.1 (Or.inl rfl), ?_⟩
  · obtain ⟨l, hst, ⟨r, hr, hd⟩, _⟩ := h.2.2.2.1 (by decide) (by decide) (by decide)
    have happ : (GetDietSpeeches.inc_scan
        (GetDietSpeeches.load_fetched_ids
          ⟨some [{ speechID := some "a", date := some 100 }], some ["a"], some (some 100)⟩)
        ((fun _ _ => [{ speechID := some "b", date := some 120 }])
          (GetDietSpeeches.incremental_from_date
            ⟨some [{ speechID := some "a", date := some 100 }], some ["a"], some (some 100)⟩)
          200)).1
        = [{ speechID := some "b", date := some 120 }] := by decide
    rw [happ, List.mem_singleton] at hr
    subst hr
    simp only at hd
    obtain rfl := Option.some.inj hd
    exact hst
  · obtain ⟨l, hst, hex, _⟩ := h0.2.2.2.2 (Or.inl rfl) (by decide) (by decide)
    obtain ⟨r, hr, hd⟩ := hex
    rw [List.mem_singleton] at hr
    subst hr
    simp only at hd
    obtain rfl := Option.some.inj hd
    exact hst
